import Mathlib

/-!
Verification of the relay-list lookup component
(`net.mullvad.mullvadvpn.relaylist.RelayList`, Kotlin):
construction of the country → city → relay hierarchy from the input model,
and `findItemForLocation` resolving a `Constraint<LocationConstraint>`
to a node of the hierarchy, or to absence.

The Kotlin code is shallowly embedded: Kotlin `List.map` becomes
`List.map`, Kotlin `List.find` (first match in a left-to-right linear
scan) becomes `List.find?`, nullable results become `Option`, and the
safe-call chains (`country?.cities?.find ...`) become `match` on the
intermediate `Option`.
-/

namespace Mullvad

/-! ### The input model (`net.mullvad.mullvadvpn.model`)

Only the fields the constructor reads are modelled: each relay's
`hostname`, each city's `name`, `code` and `relays`, each country's
`name`, `code` and `cities`. -/

namespace Model

structure Relay where
  hostname : String
  deriving DecidableEq, Repr

structure City where
  name : String
  code : String
  relays : List Relay
  deriving DecidableEq, Repr

structure Country where
  name : String
  code : String
  cities : List City
  deriving DecidableEq, Repr

structure RelayList where
  countries : List Country
  deriving DecidableEq, Repr

end Model

/-! ### The constructed hierarchy (`net.mullvad.mullvadvpn.relaylist`) -/

/-- Leaf node `Relay(countryCode, cityCode, name)`; carries its full
path identity. Kotlin constructs it as
`Relay(country.code, city.code, relay.hostname)`. -/
structure Relay where
  countryCode : String
  cityCode : String
  name : String
  deriving DecidableEq, Repr

/-- City node `RelayCity(name, countryCode, code, expanded, relays)`. -/
structure RelayCity where
  name : String
  countryCode : String
  code : String
  expanded : Bool
  relays : List Relay
  deriving DecidableEq, Repr

/-- Country node `RelayCountry(name, code, expanded, cities)`. -/
structure RelayCountry where
  name : String
  code : String
  expanded : Bool
  cities : List RelayCity
  deriving DecidableEq, Repr

/-- The common supertype `RelayItem` of the three node kinds, embedded as a
sum: `findItemForLocation` returns `RelayItem?`. -/
inductive RelayItem where
  | country : RelayCountry → RelayItem
  | city : RelayCity → RelayItem
  | relay : Relay → RelayItem
  deriving DecidableEq, Repr

/-- Tagged variant `LocationConstraint` over
country / city / hostname identities. -/
inductive LocationConstraint where
  | country : (countryCode : String) → LocationConstraint
  | city : (countryCode : String) → (cityCode : String) → LocationConstraint
  | hostname : (countryCode : String) → (cityCode : String) →
      (hostname : String) → LocationConstraint
  deriving DecidableEq, Repr

/-- Tagged variant `Constraint<T>`: `Any` or `Only(value)`. -/
inductive Constraint (α : Type) where
  | any : Constraint α
  | only : (value : α) → Constraint α
  deriving DecidableEq, Repr

/-- The relay-list index: an ordered sequence of countries. -/
structure RelayList where
  countries : List RelayCountry
  deriving DecidableEq, Repr

/-- The Kotlin constructor `RelayList(model)`: maps the input hierarchy
level by level, copying names, propagating `country.code` and `city.code`
down to each relay, and initialising every `expanded` flag to `false`. -/
def RelayList.ofModel (model : Model.RelayList) : RelayList where
  countries := model.countries.map fun country =>
    RelayCountry.mk country.name country.code false
      (country.cities.map fun city =>
        RelayCity.mk city.name country.code city.code false
          (city.relays.map fun relay =>
            Relay.mk country.code city.code relay.hostname))

/-- Lookup `findItemForLocation(constraint)`: translation of the Kotlin `when`
chains; Kotlin `find` is `List.find?` and the `?.`-chains are matches on
the intermediate options. -/
def RelayList.findItemForLocation (self : RelayList)
    (constraint : Constraint LocationConstraint) : Option RelayItem :=
  match constraint with
  | .any => none
  | .only location =>
    match location with
    | .country countryCode =>
      (self.countries.find? fun country => country.code == countryCode).map
        RelayItem.country
    | .city countryCode cityCode =>
      match self.countries.find? fun country => country.code == countryCode with
      | none => none
      | some country =>
        (country.cities.find? fun city => city.code == cityCode).map
          RelayItem.city
    | .hostname countryCode cityCode hostname =>
      match self.countries.find? fun country => country.code == countryCode with
      | none => none
      | some country =>
        match country.cities.find? fun city => city.code == cityCode with
        | none => none
        | some city =>
          (city.relays.find? fun relay => relay.name == hostname).map
            RelayItem.relay

/-! ### Specification-side characterisation of a linear scan -/

/-- Predicate: `x` is the first match, in a left-to-right scan of `l`, of the
predicate `p`: it occurs at some index `i`, satisfies `p`, and every
element strictly before index `i` fails `p`. -/
def FirstMatch {α : Type} (p : α → Bool) (l : List α) (x : α) : Prop :=
  ∃ i, ∃ hi : i < l.length, x = l.get ⟨i, hi⟩ ∧ p x = true ∧
    ∀ j, ∀ hj : j < l.length, j < i → p (l.get ⟨j, hj⟩) = false

/-- Kotlin `find` (= `List.find?`) returns exactly the first match of the
scan, in the sense of `FirstMatch`. -/
theorem find?_eq_some_iff_FirstMatch {α : Type} (p : α → Bool) (l : List α)
    (x : α) : l.find? p = some x ↔ FirstMatch p l x := by
  rw [List.find?_eq_some_iff_getElem]
  constructor
  · rintro ⟨hpx, i, hi, hget, hbefore⟩
    refine ⟨i, hi, hget.symm, hpx, fun j hj hji => ?_⟩
    simpa using hbefore j hji
  · rintro ⟨i, hi, hget, hpx, hbefore⟩
    refine ⟨hpx, i, hi, hget.symm, fun j hji => ?_⟩
    simpa using hbefore j (Nat.lt_trans hji hi) hji

/-! ### Unfolding equations for the three `Only` branches -/

theorem findItemForLocation_only_country (rl : RelayList) (countryCode : String) :
    rl.findItemForLocation (.only (.country countryCode)) =
      (rl.countries.find? fun country => country.code == countryCode).map
        RelayItem.country := rfl

theorem findItemForLocation_only_city (rl : RelayList)
    (countryCode cityCode : String) :
    rl.findItemForLocation (.only (.city countryCode cityCode)) =
      (rl.countries.find? fun country => country.code == countryCode).bind
        fun country =>
          (country.cities.find? fun city => city.code == cityCode).map
            RelayItem.city := by
  simp only [RelayList.findItemForLocation]
  cases rl.countries.find? fun country => country.code == countryCode with
  | none => rfl
  | some country => simp only [Option.some_bind]

theorem findItemForLocation_only_hostname (rl : RelayList)
    (countryCode cityCode hostname : String) :
    rl.findItemForLocation (.only (.hostname countryCode cityCode hostname)) =
      (rl.countries.find? fun country => country.code == countryCode).bind
        fun country =>
          (country.cities.find? fun city => city.code == cityCode).bind
            fun city =>
              (city.relays.find? fun relay => relay.name == hostname).map
                RelayItem.relay := by
  simp only [RelayList.findItemForLocation]
  cases rl.countries.find? fun country => country.code == countryCode with
  | none => rfl
  | some country =>
    simp only [Option.some_bind]
    cases country.cities.find? fun city => city.code == cityCode with
    | none => rfl
    | some city => simp only [Option.some_bind]

end Mullvad

namespace Mullvad

/-- C3: `findItemForLocation(Constraint.Any)` returns absent for every
relay list, regardless of its contents. -/
theorem findItemForLocation_any (rl : RelayList) :
    rl.findItemForLocation Constraint.any = none := rfl

/-- C4: `findItemForLocation(Only(Country(code)))` is a left-to-right
linear scan of the top-level countries: it returns `some` of a node iff
that node wraps the first country whose code equals the queried code
(exact, case-sensitive string equality), and it returns absent iff no
country matches; with duplicate codes the first match in stored order
wins. -/
theorem findItemForLocation_country_firstMatch (rl : RelayList)
    (code : String) :
    (∀ it, rl.findItemForLocation (.only (.country code)) = some it ↔
      ∃ c, FirstMatch (fun country => country.code == code) rl.countries c ∧
        it = RelayItem.country c) ∧
    (rl.findItemForLocation (.only (.country code)) = none ↔
      ∀ c ∈ rl.countries, ¬ c.code = code) := by
  rw [findItemForLocation_only_country]
  constructor
  · intro it
    constructor
    · intro hsome
      obtain ⟨c, hc, hit⟩ := Option.map_eq_some'.mp hsome
      exact ⟨c, (find?_eq_some_iff_FirstMatch _ _ _).mp hc, hit.symm⟩
    · rintro ⟨c, hc, rfl⟩
      rw [(find?_eq_some_iff_FirstMatch _ _ _).mpr hc]
      rfl
  · rw [Option.map_eq_none', List.find?_eq_none]
    simp

/-- C5: `findItemForLocation(Only(City(countryCode, cityCode)))` first
resolves the country (first match of the scan); if no country matches the
result is absent, and otherwise that country's cities are scanned
left-to-right for the city code: the result is `some` of a node iff it
wraps the first matching city, and if the country exists but no city
matches, the result is absent. -/
theorem findItemForLocation_city_spec (rl : RelayList)
    (countryCode cityCode : String) :
    ((∀ c ∈ rl.countries, ¬ c.code = countryCode) →
      rl.findItemForLocation (.only (.city countryCode cityCode)) = none) ∧
    ∀ c, FirstMatch (fun country => country.code == countryCode)
        rl.countries c →
      (∀ it, rl.findItemForLocation (.only (.city countryCode cityCode)) =
          some it ↔
        ∃ ct, FirstMatch (fun city => city.code == cityCode) c.cities ct ∧
          it = RelayItem.city ct) ∧
      ((∀ ct ∈ c.cities, ¬ ct.code = cityCode) →
        rl.findItemForLocation (.only (.city countryCode cityCode)) =
          none) := by
  rw [findItemForLocation_only_city]
  constructor
  · intro habsent
    have hnone : (rl.countries.find? fun country =>
        country.code == countryCode) = none := by
      rw [List.find?_eq_none]; simpa using habsent
    rw [hnone]; rfl
  · intro c hc
    rw [(find?_eq_some_iff_FirstMatch _ _ _).mpr hc, Option.some_bind]
    constructor
    · intro it
      constructor
      · intro hsome
        obtain ⟨ct, hct, hit⟩ := Option.map_eq_some'.mp hsome
        exact ⟨ct, (find?_eq_some_iff_FirstMatch _ _ _).mp hct, hit.symm⟩
      · rintro ⟨ct, hct, rfl⟩
        rw [(find?_eq_some_iff_FirstMatch _ _ _).mpr hct]; rfl
    · intro habsent
      have hnone : (c.cities.find? fun city => city.code == cityCode) =
          none := by
        rw [List.find?_eq_none]; simpa using habsent
      rw [hnone]; rfl

/-- C2: `findItemForLocation(Only(Hostname(countryCode, cityCode,
hostname)))` resolves the country, then the city within it, then linearly
scans that city's relays for the exact (case-sensitive) hostname: a miss
at any level short-circuits to absence, and the result is `some` of a node
iff it wraps the first relay of the resolved city whose name equals the
hostname. -/
theorem findItemForLocation_hostname_spec (rl : RelayList)
    (countryCode cityCode hostname : String) :
    ((∀ c ∈ rl.countries, ¬ c.code = countryCode) →
      rl.findItemForLocation
        (.only (.hostname countryCode cityCode hostname)) = none) ∧
    ∀ c, FirstMatch (fun country => country.code == countryCode)
        rl.countries c →
      ((∀ ct ∈ c.cities, ¬ ct.code = cityCode) →
        rl.findItemForLocation
          (.only (.hostname countryCode cityCode hostname)) = none) ∧
      ∀ ct, FirstMatch (fun city => city.code == cityCode) c.cities ct →
        ((∀ r ∈ ct.relays, ¬ r.name = hostname) →
          rl.findItemForLocation
            (.only (.hostname countryCode cityCode hostname)) = none) ∧
        (∀ it, rl.findItemForLocation
            (.only (.hostname countryCode cityCode hostname)) = some it ↔
          ∃ r, FirstMatch (fun relay => relay.name == hostname)
              ct.relays r ∧
            it = RelayItem.relay r) := by
  rw [findItemForLocation_only_hostname]
  constructor
  · intro habsent
    have hnone : (rl.countries.find? fun country =>
        country.code == countryCode) = none := by
      rw [List.find?_eq_none]; simpa using habsent
    rw [hnone]; rfl
  · intro c hc
    rw [(find?_eq_some_iff_FirstMatch _ _ _).mpr hc, Option.some_bind]
    constructor
    · intro habsent
      have hnone : (c.cities.find? fun city => city.code == cityCode) =
          none := by
        rw [List.find?_eq_none]; simpa using habsent
      rw [hnone]; rfl
    · intro ct hct
      rw [(find?_eq_some_iff_FirstMatch _ _ _).mpr hct, Option.some_bind]
      constructor
      · intro habsent
        have hnone : (ct.relays.find? fun relay => relay.name == hostname) =
            none := by
          rw [List.find?_eq_none]; simpa using habsent
        rw [hnone]; rfl
      · intro it
        constructor
        · intro hsome
          obtain ⟨r, hr, hit⟩ := Option.map_eq_some'.mp hsome
          exact ⟨r, (find?_eq_some_iff_FirstMatch _ _ _).mp hr, hit.symm⟩
        · rintro ⟨r, hr, rfl⟩
          rw [(find?_eq_some_iff_FirstMatch _ _ _).mpr hr]; rfl

/-! ### Concrete sample data (the spec's `se` / `sto` / `se1-wg-001`) -/

/-- Sample input model: Sweden / Stockholm / one relay. -/
def seModel : Model.RelayList :=
  Model.RelayList.mk
    [Model.Country.mk "Sweden" "se"
      [Model.City.mk "Stockholm" "sto" [Model.Relay.mk "se1-wg-001"]]]

def stoRelay : Relay := Relay.mk "se" "sto" "se1-wg-001"

def stoCity : RelayCity := RelayCity.mk "Stockholm" "se" "sto" false [stoRelay]

def seCountry : RelayCountry := RelayCountry.mk "Sweden" "se" false [stoCity]

/-- The index built from the sample model. -/
def seRelayList : RelayList := RelayList.ofModel seModel

theorem seRelayList_eq : seRelayList = RelayList.mk [seCountry] := by decide

/-- Fact: `seCountry` is the first (and only) match of the country scan. -/
theorem seCountry_firstMatch :
    FirstMatch (fun country => country.code == "se")
      seRelayList.countries seCountry :=
  ⟨0, by decide, by decide, by decide,
    fun j hj hj0 => absurd hj0 (Nat.not_lt_zero j)⟩

/-- Fact: `stoCity` is the first (and only) match of the city scan. -/
theorem stoCity_firstMatch :
    FirstMatch (fun city => city.code == "sto") seCountry.cities stoCity :=
  ⟨0, by decide, by decide, by decide,
    fun j hj hj0 => absurd hj0 (Nat.not_lt_zero j)⟩

/-- Fact: `stoRelay` is the first (and only) match of the relay scan. -/
theorem stoRelay_firstMatch :
    FirstMatch (fun relay => relay.name == "se1-wg-001")
      stoCity.relays stoRelay :=
  ⟨0, by decide, by decide, by decide,
    fun j hj hj0 => absurd hj0 (Nat.not_lt_zero j)⟩

/-- Witness for C3 at the sample index. -/
theorem findItemForLocation_any_witness :
    seRelayList.findItemForLocation Constraint.any = none :=
  findItemForLocation_any seRelayList

/-- Witness for C4: the sample country is found by its code. -/
theorem findItemForLocation_country_firstMatch_witness :
    seRelayList.findItemForLocation (.only (.country "se")) =
      some (RelayItem.country seCountry) :=
  ((findItemForLocation_country_firstMatch seRelayList "se").1
      (RelayItem.country seCountry)).mpr
    ⟨seCountry, seCountry_firstMatch, rfl⟩

/-- Witness for C5: the sample city is found by its codes. -/
theorem findItemForLocation_city_spec_witness :
    seRelayList.findItemForLocation (.only (.city "se" "sto")) =
      some (RelayItem.city stoCity) :=
  (((findItemForLocation_city_spec seRelayList "se" "sto").2
        seCountry seCountry_firstMatch).1
      (RelayItem.city stoCity)).mpr
    ⟨stoCity, stoCity_firstMatch, rfl⟩

/-- Witness for C2: the sample relay is found by its full path. -/
theorem findItemForLocation_hostname_spec_witness :
    seRelayList.findItemForLocation
        (.only (.hostname "se" "sto" "se1-wg-001")) =
      some (RelayItem.relay stoRelay) :=
  ((((findItemForLocation_hostname_spec seRelayList "se" "sto"
            "se1-wg-001").2
          seCountry seCountry_firstMatch).2
        stoCity stoCity_firstMatch).2
      (RelayItem.relay stoRelay)).mpr
    ⟨stoRelay, stoRelay_firstMatch, rfl⟩

/-- C9: Whenever `findItemForLocation(Only(location))` returns a node,
the node's identifying field matches the query: a `Country` query returns
a country with the queried code, a `City` query a city with the queried
city code, a `Hostname` query a relay with the queried hostname. -/
theorem findItemForLocation_matches_query (rl : RelayList) :
    (∀ code it, rl.findItemForLocation (.only (.country code)) = some it →
      ∃ c, it = RelayItem.country c ∧ c.code = code) ∧
    (∀ countryCode cityCode it,
      rl.findItemForLocation (.only (.city countryCode cityCode)) =
        some it →
      ∃ ct, it = RelayItem.city ct ∧ ct.code = cityCode) ∧
    (∀ countryCode cityCode hostname it,
      rl.findItemForLocation
          (.only (.hostname countryCode cityCode hostname)) = some it →
      ∃ r, it = RelayItem.relay r ∧ r.name = hostname) := by
  refine ⟨?_, ?_, ?_⟩
  · intro code it hit
    rw [findItemForLocation_only_country] at hit
    obtain ⟨c, hc, hmap⟩ := Option.map_eq_some'.mp hit
    have := List.find?_some hc
    exact ⟨c, hmap.symm, by simpa using this⟩
  · intro countryCode cityCode it hit
    rw [findItemForLocation_only_city] at hit
    obtain ⟨c, hc, hrest⟩ := Option.bind_eq_some.mp hit
    obtain ⟨ct, hct, hmap⟩ := Option.map_eq_some'.mp hrest
    have := List.find?_some hct
    exact ⟨ct, hmap.symm, by simpa using this⟩
  · intro countryCode cityCode hostname it hit
    rw [findItemForLocation_only_hostname] at hit
    obtain ⟨c, hc, hrest⟩ := Option.bind_eq_some.mp hit
    obtain ⟨ct, hct, hrest2⟩ := Option.bind_eq_some.mp hrest
    obtain ⟨r, hr, hmap⟩ := Option.map_eq_some'.mp hrest2
    have := List.find?_some hr
    exact ⟨r, hmap.symm, by simpa using this⟩

/-- Witness for C9: at the sample index, a hostname query yields a relay
named by the query. -/
theorem findItemForLocation_matches_query_witness :
    ∃ r, RelayItem.relay stoRelay = RelayItem.relay r ∧
      r.name = "se1-wg-001" :=
  (findItemForLocation_matches_query seRelayList).2.2 "se" "sto"
    "se1-wg-001" (RelayItem.relay stoRelay) (by decide)

/-- C10: Success is monotone along constraint prefixes: if a
`Hostname(cc, ci, h)` query returns a node then so does the
`City(cc, ci)` query, and if a `City(cc, ci)` query returns a node then so
does the `Country(cc)` query. -/
theorem findItemForLocation_prefix_monotone (rl : RelayList)
    (countryCode cityCode hostname : String) :
    ((∃ it, rl.findItemForLocation
        (.only (.hostname countryCode cityCode hostname)) = some it) →
      ∃ it, rl.findItemForLocation
        (.only (.city countryCode cityCode)) = some it) ∧
    ((∃ it, rl.findItemForLocation
        (.only (.city countryCode cityCode)) = some it) →
      ∃ it, rl.findItemForLocation (.only (.country countryCode)) =
        some it) := by
  rw [findItemForLocation_only_hostname, findItemForLocation_only_city,
    findItemForLocation_only_country]
  constructor
  · rintro ⟨it, hit⟩
    obtain ⟨c, hc, hrest⟩ := Option.bind_eq_some.mp hit
    obtain ⟨ct, hct, _⟩ := Option.bind_eq_some.mp hrest
    refine ⟨RelayItem.city ct, ?_⟩
    simp only [hc, Option.some_bind, hct]
    rfl
  · rintro ⟨it, hit⟩
    obtain ⟨c, hc, _⟩ := Option.bind_eq_some.mp hit
    refine ⟨RelayItem.country c, ?_⟩
    rw [hc]
    rfl

/-- Witness for C10: at the sample index, city success propagates to
country success. -/
theorem findItemForLocation_prefix_monotone_witness :
    ∃ it, seRelayList.findItemForLocation (.only (.country "se")) =
      some it :=
  (findItemForLocation_prefix_monotone seRelayList "se" "sto"
      "se1-wg-001").2
    ⟨RelayItem.city stoCity, by decide⟩

/-! ### Properties of construction -/

/-- Helper: every node of a constructed list carries the codes of its
owners — cities carry their country's code, relays carry both their
country's and their city's code. -/
theorem relayCodes_ofModel (m : Model.RelayList) :
    ∀ c ∈ (RelayList.ofModel m).countries, ∀ ct ∈ c.cities,
      ct.countryCode = c.code ∧
        ∀ r ∈ ct.relays, r.countryCode = c.code ∧ r.cityCode = ct.code := by
  intro c hc ct hct
  simp only [RelayList.ofModel, List.mem_map] at hc
  obtain ⟨country, hcountry, rfl⟩ := hc
  simp only [List.mem_map] at hct
  obtain ⟨city, hcity, rfl⟩ := hct
  refine ⟨rfl, ?_⟩
  intro r hr
  simp only [List.mem_map] at hr
  obtain ⟨relay, hrelay, rfl⟩ := hr
  exact ⟨rfl, rfl⟩

/-- C7: Structural invariant of construction: in every constructed
relay list, each relay's stored `countryCode`/`cityCode` equal the codes
of its owning country and city, and each city's `countryCode` equals its
owning country's code. -/
theorem ofModel_codes_invariant (m : Model.RelayList) :
    ∀ c ∈ (RelayList.ofModel m).countries, ∀ ct ∈ c.cities,
      ct.countryCode = c.code ∧
        ∀ r ∈ ct.relays, r.countryCode = c.code ∧ r.cityCode = ct.code :=
  relayCodes_ofModel m

/-- Witness for C7 at the sample model. -/
theorem ofModel_codes_invariant_witness :
    stoCity.countryCode = seCountry.code ∧
      stoRelay.countryCode = seCountry.code ∧
        stoRelay.cityCode = stoCity.code := by
  have h := ofModel_codes_invariant seModel seCountry (by decide)
    stoCity (by decide)
  exact ⟨h.1, h.2 stoRelay (by decide)⟩

/-- C8: Construction initialises every country's and every city's
visibility/expansion flag to `false`, for every input model. -/
theorem ofModel_flags_false (m : Model.RelayList) :
    ∀ c ∈ (RelayList.ofModel m).countries,
      c.expanded = false ∧ ∀ ct ∈ c.cities, ct.expanded = false := by
  intro c hc
  simp only [RelayList.ofModel, List.mem_map] at hc
  obtain ⟨country, hcountry, rfl⟩ := hc
  refine ⟨rfl, ?_⟩
  intro ct hct
  simp only [List.mem_map] at hct
  obtain ⟨city, hcity, rfl⟩ := hct
  rfl

/-- Witness for C8 at the sample model. -/
theorem ofModel_flags_false_witness :
    seCountry.expanded = false ∧ stoCity.expanded = false := by
  have h := ofModel_flags_false seModel seCountry (by decide)
  exact ⟨h.1, h.2 stoCity (by decide)⟩

/-- C6: Construction preserves counts and order exactly: at each level
the constructed list has the same length as the input list, and the node
at each position carries the name/code data of the input entry at the
same position (no sorting, no deduplication). -/
theorem ofModel_preserves_order (m : Model.RelayList) :
    (RelayList.ofModel m).countries.length = m.countries.length ∧
    ∀ i, ∀ hmi : i < m.countries.length,
      ∀ hci : i < (RelayList.ofModel m).countries.length,
      let mc := m.countries.get ⟨i, hmi⟩
      let cc := (RelayList.ofModel m).countries.get ⟨i, hci⟩
      cc.name = mc.name ∧ cc.code = mc.code ∧
      cc.cities.length = mc.cities.length ∧
      ∀ j, ∀ hmj : j < mc.cities.length, ∀ hcj : j < cc.cities.length,
        let mct := mc.cities.get ⟨j, hmj⟩
        let cct := cc.cities.get ⟨j, hcj⟩
        cct.name = mct.name ∧ cct.code = mct.code ∧
        cct.relays.length = mct.relays.length ∧
        ∀ k, ∀ hmk : k < mct.relays.length, ∀ hck : k < cct.relays.length,
          (cct.relays.get ⟨k, hck⟩).name =
            (mct.relays.get ⟨k, hmk⟩).hostname := by
  constructor
  · simp [RelayList.ofModel]
  · intro i hmi hci
    refine ⟨?_, ?_, ?_, ?_⟩
    · simp [RelayList.ofModel]
    · simp [RelayList.ofModel]
    · simp [RelayList.ofModel]
    · intro j hmj hcj
      refine ⟨?_, ?_, ?_, ?_⟩
      · simp [RelayList.ofModel]
      · simp [RelayList.ofModel]
      · simp [RelayList.ofModel]
      · intro k hmk hck
        simp [RelayList.ofModel]

/-- Witness for C6 at the sample model: position 0/0/0. -/
theorem ofModel_preserves_order_witness :
    ((RelayList.ofModel seModel).countries.get ⟨0, by decide⟩).code =
      (seModel.countries.get ⟨0, by decide⟩).code := by
  have h := (ofModel_preserves_order seModel).2 0 (by decide) (by decide)
  exact h.2.1

/-! ### The round-trip property -/

/-- A linear scan returns `x` itself when `x` is the unique element of
the list satisfying the predicate. -/
theorem find?_eq_some_of_unique {α : Type} (p : α → Bool) :
    ∀ (l : List α), ∀ x ∈ l, p x = true →
      (∀ y ∈ l, p y = true → y = x) → l.find? p = some x := by
  intro l
  induction l with
  | nil => intro x hx; cases hx
  | cons a l ih =>
    intro x hx hpx huniq
    by_cases hpa : p a = true
    · rw [List.find?_cons_of_pos _ hpa,
        huniq a (List.mem_cons_self a l) hpa]
    · rw [List.find?_cons_of_neg _ hpa]
      have hxl : x ∈ l := by
        rcases List.mem_cons.mp hx with h | h
        · exact absurd (h ▸ hpx) hpa
        · exact h
      exact ih x hxl hpx fun y hy hpy =>
        huniq y (List.mem_cons_of_mem a hy) hpy

/-- Relays are determined by their three fields. -/
theorem Relay.eq_of_fields {x y : Relay}
    (h1 : x.countryCode = y.countryCode) (h2 : x.cityCode = y.cityCode)
    (h3 : x.name = y.name) : x = y := by
  cases x; cases y; simp_all

/-- Input model with two cities sharing the code "b" inside country "a";
the only relay lives in the second of the two. -/
def dupModel : Model.RelayList :=
  Model.RelayList.mk
    [Model.Country.mk "Aland" "a"
      [Model.City.mk "B one" "b" [],
        Model.City.mk "B two" "b" [Model.Relay.mk "h"]]]

/-- C1 fails as stated: In `RelayList.ofModel dupModel` the relay
`("a","b","h")` is present, yet querying its own full path as a Hostname
constraint does not return it: the scan resolves the first city with code
"b", which has no relays, so the lookup returns absent. -/
theorem roundtrip_counterexample :
    (∃ c ∈ (RelayList.ofModel dupModel).countries, ∃ ct ∈ c.cities,
      ∃ r ∈ ct.relays, r = Relay.mk "a" "b" "h") ∧
    ¬ (RelayList.ofModel dupModel).findItemForLocation
        (.only (.hostname "a" "b" "h")) =
      some (RelayItem.relay (Relay.mk "a" "b" "h")) := by decide

/-- C1 (amended): Round trip under unique sibling codes: in a
constructed relay list whose top-level country codes are pairwise
distinct and whose city codes are pairwise distinct within each country,
querying any present relay's own (countryCode, cityCode, name) as a
Hostname constraint returns exactly that relay node. -/
theorem roundtrip_amended (m : Model.RelayList)
    (hTopUnique : (RelayList.ofModel m).countries.Pairwise
      fun a b => a.code ≠ b.code)
    (hCityUnique : ∀ c ∈ (RelayList.ofModel m).countries,
      c.cities.Pairwise fun a b => a.code ≠ b.code) :
    ∀ c ∈ (RelayList.ofModel m).countries, ∀ ct ∈ c.cities,
      ∀ r ∈ ct.relays,
      (RelayList.ofModel m).findItemForLocation
          (.only (.hostname r.countryCode r.cityCode r.name)) =
        some (RelayItem.relay r) := by
  intro c hc ct hct r hr
  obtain ⟨hctcc, hrel⟩ := relayCodes_ofModel m c hc ct hct
  obtain ⟨hrcc, hrci⟩ := hrel r hr
  rw [findItemForLocation_only_hostname, hrcc, hrci]
  have hsym : Symmetric fun a b : RelayCountry => a.code ≠ b.code :=
    fun a b h e => h e.symm
  have hfc : ((RelayList.ofModel m).countries.find? fun country =>
      country.code == c.code) = some c := by
    apply find?_eq_some_of_unique _ _ c hc (by simp)
    intro y hy hpy
    by_contra hne
    exact (hTopUnique.forall hsym hy hc hne) (by simpa using hpy)
  rw [hfc, Option.some_bind]
  have hsymc : Symmetric fun a b : RelayCity => a.code ≠ b.code :=
    fun a b h e => h e.symm
  have hfct : (c.cities.find? fun city => city.code == ct.code) =
      some ct := by
    apply find?_eq_some_of_unique _ _ ct hct (by simp)
    intro y hy hpy
    by_contra hne
    exact ((hCityUnique c hc).forall hsymc hy hct hne) (by simpa using hpy)
  rw [hfct, Option.some_bind]
  cases hfr : ct.relays.find? fun relay => relay.name == r.name with
  | none =>
    have hcontra := List.find?_eq_none.mp hfr r hr
    simp at hcontra
  | some r2 =>
    have hmem := List.mem_of_find?_eq_some hfr
    have hname : r2.name = r.name := by
      simpa using List.find?_some hfr
    obtain ⟨hr2cc, hr2ci⟩ := hrel r2 hmem
    rw [Relay.eq_of_fields (hr2cc.trans hrcc.symm)
      (hr2ci.trans hrci.symm) hname]
    rfl

/-- Witness for the amended round trip at the sample model. -/
theorem roundtrip_amended_witness :
    (RelayList.ofModel seModel).findItemForLocation
        (.only (.hostname stoRelay.countryCode stoRelay.cityCode
          stoRelay.name)) =
      some (RelayItem.relay stoRelay) :=
  roundtrip_amended seModel (by decide) (by decide) seCountry (by decide)
    stoCity (by decide) stoRelay (by decide)

end Mullvad
